import Mathlib

/-!
Verification of the track-selection and transcode-plan engine of
`transcoder.py` against its natural-language specification.

The Python source is shallowly embedded below: the `Track` class becomes a
structure, the module-level format tables become list constants, the
`ffprobe`-output parser (`FFPROBE_REGEX` + `Transcoder.probe`) becomes a
recursive-descent matcher with the same backtracking behaviour as the regex,
and `Transcoder.transcode` becomes a function from the three track lists to
an `Except` value: `Except.error` models an uncaught Python exception
(`ValueError` from `list.index`, `TypeError` from `'x' in None`, `NameError`
from an unbound loop variable), and the `.ok` result carries the final track
lists plus the assembled ffmpeg argument list (`none` when the run stops at
the "nothing to convert" early return, i.e. no external encode is invoked).
-/

/-- Python exceptions that the embedded code can raise. -/
inductive PyError where
  | valueError
  | typeError
  | nameError
deriving DecidableEq, Repr

instance {ε α : Type _} [DecidableEq ε] [DecidableEq α] : DecidableEq (Except ε α) := fun a b =>
  match a, b with
  | .ok x, .ok y =>
    if h : x = y then isTrue (h ▸ rfl) else isFalse (fun hc => h (Except.ok.inj hc))
  | .error x, .error y =>
    if h : x = y then isTrue (h ▸ rfl) else isFalse (fun hc => h (Except.error.inj hc))
  | .ok _, .error _ => isFalse (fun hc => Except.noConfusion hc)
  | .error _, .ok _ => isFalse (fun hc => Except.noConfusion hc)

/-- Embedding of the `Track` class (transcoder.py lines 37-102).
`file_id`/`track_id` are stored as `Nat` (the regex guarantees digit runs,
and the `int()` property setters then always succeed); `trackfile` is
`Option String` (Python `None` becomes `none`); `options` is `[]` where the
Python default is `None` (the code only ever tests truthiness of `options`
and concatenates it, for which `None` and `[]` behave identically). -/
structure Track where
  file_id : Nat
  track_id : Nat
  language : String
  format : String
  trackfile : Option String
  temporary : Bool
  codec : String
  surround : Bool
  options : List String
deriving DecidableEq, Repr

/-- DEFAULT_LANGUAGES (transcoder.py lines 16-20): ordered code → display-name table. -/
def DEFAULT_LANGUAGES : List (String × String) :=
  [("eng", "English"), ("rus", "Russian"), ("jpn", "Japanese")]

def FORMATS_VIDEO : List String := ["h264"]

def FORMATS_STEREO : List String := ["aac"]

def FORMATS_LOSSLESS : List String := ["flac"]

def FORMATS_SURROUND : List String := ["ac3", "dts"]

def FORMATS_CONVERT : List String := ["vorbis"]

def FORMATS_SUBTITLE : List String := ["subrip", "mov_text"]

/-- FORMATS (transcoder.py line 28): concatenation order fixes the format rank. -/
def FORMATS : List String :=
  FORMATS_VIDEO ++ FORMATS_STEREO ++ FORMATS_CONVERT ++ FORMATS_SURROUND ++
    FORMATS_LOSSLESS ++ FORMATS_SUBTITLE

def FFMPEG_PATH : String := "ffmpeg"

/-- Per-run configuration: the `Transcoder.__init__` fields used by the core
(`source`, `languages`, `force_language`, `ffmpeg_loglevel`).  A Python
`force_language` of `None` is modelled as the empty string (both are falsy,
which is all the code tests). -/
structure Config where
  source : String
  languages : List String
  force_language : String
  ffmpeg_loglevel : String
deriving Repr

/-- Python `\s` on the ASCII range (the inventory text is ASCII). -/
def isSpaceChar (c : Char) : Bool :=
  c = ' ' || c = '\t' || c = '\n' || c = '\r' || c = '\x0b' || c = '\x0c'

/-- Python `\w` on the ASCII range. -/
def isWordChar (c : Char) : Bool :=
  c.isAlphanum || c = '_'

/-- Python `str.strip()`. -/
def pyStrip (s : List Char) : List Char :=
  ((s.dropWhile isSpaceChar).reverse.dropWhile isSpaceChar).reverse

/-- Match a literal at the head of the input, returning the rest. -/
def matchLit : List Char → List Char → Option (List Char)
  | [], s => some s
  | _ :: _, [] => none
  | c :: cs, d :: ds => if c = d then matchLit cs ds else none

/-- Value of `int()` on a digit run. -/
def digitsToNat (cs : List Char) : Nat :=
  cs.foldl (fun n c => n * 10 + (c.toNat - 48)) 0

/-- The named groups of a successful `FFPROBE_REGEX.match`. -/
structure RawMatch where
  file_id : Nat
  track_id : Nat
  language : Option String
  track_type : String
  format : String
  subformat : Option String
  other : Option String
deriving DecidableEq, Repr

/-- The optional language group `(?:\((?P<language>\w+)\))?` of FFPROBE_REGEX.
If the next character is `(` the regex engine can only proceed by matching
`\w+` then `)` (falling back to the empty alternative would require a `:` at
the `(` position, which fails), so failure of the inner parse fails the line. -/
def parseLang : List Char → Option (Option (List Char) × List Char)
  | '(' :: rest =>
    let w := rest.takeWhile isWordChar
    let r2 := rest.dropWhile isWordChar
    if w.isEmpty then none
    else
      match r2 with
      | ')' :: r3 => some (some w, r3)
      | _ => none
  | s => some (none, s)

/-- Backtracking search used for the `\((?P<subformat>.*)\),\s+(?P<other>.*)`
tail: the greedy `.*` selects the last `)` that is followed by `,` and at
least one whitespace character; `subformat` is everything before that `)`,
`other` is everything after the maximal whitespace run following the `,`. -/
def findSub : List Char → Option (List Char × List Char)
  | [] => none
  | c :: cs =>
    match findSub cs with
    | some (pre, oth) => some (c :: pre, oth)
    | none =>
      if c = ')' then
        match cs with
        | ',' :: d :: ds =>
          if isSpaceChar d then some ([], (d :: ds).dropWhile isSpaceChar) else none
        | _ => none
      else none

/-- The optional trailing group
`(\s*(\((?P<subformat>.*)\))?,\s+(?P<other>.*))?` of FFPROBE_REGEX,
returning `(subformat, other)`; both are `none` when the group does not
match (the group is optional, so the overall match still succeeds). -/
def matchTailGroup (s : List Char) : Option (List Char) × Option (List Char) :=
  match s.dropWhile isSpaceChar with
  | '(' :: rest =>
    match findSub rest with
    | some (pre, oth) => (some pre, some oth)
    | none => (none, none)
  | ',' :: d :: ds =>
    if isSpaceChar d then (none, some ((d :: ds).dropWhile isSpaceChar)) else (none, none)
  | _ => (none, none)

/-- Embedding of `FFPROBE_REGEX.match` (transcoder.py lines 30-32) on one
(already stripped) line.  `none` means the line does not match and is
ignored by `probe`. -/
def matchLine (line : List Char) : Option RawMatch :=
  match matchLit "Stream #".toList line with
  | none => none
  | some s =>
    let fid := s.takeWhile Char.isDigit
    let s1 := s.dropWhile Char.isDigit
    if fid.isEmpty then none
    else
      match s1 with
      | ':' :: s2 =>
        let tid := s2.takeWhile Char.isDigit
        let s3 := s2.dropWhile Char.isDigit
        if tid.isEmpty then none
        else
          match parseLang s3 with
          | none => none
          | some (lang, s4) =>
            match s4 with
            | ':' :: s5 =>
              let sp1 := s5.takeWhile isSpaceChar
              let s6 := s5.dropWhile isSpaceChar
              if sp1.isEmpty then none
              else
                let tt := s6.takeWhile isWordChar
                let s7 := s6.dropWhile isWordChar
                if tt.isEmpty then none
                else
                  match s7 with
                  | ':' :: s8 =>
                    let sp2 := s8.takeWhile isSpaceChar
                    let s9 := s8.dropWhile isSpaceChar
                    if sp2.isEmpty then none
                    else
                      let fm := s9.takeWhile isWordChar
                      let s10 := s9.dropWhile isWordChar
                      if fm.isEmpty then none
                      else
                        let so := matchTailGroup s10
                        some ⟨digitsToNat fid, digitsToNat tid,
                              lang.map String.mk, String.mk tt, String.mk fm,
                              so.1.map String.mk, so.2.map String.mk⟩
                  | _ => none
            | _ => none
      | _ => none

/-- Python `pat in s` substring test, prefix check. -/
def beginsWith : List Char → List Char → Bool
  | [], _ => true
  | _ :: _, [] => false
  | c :: cs, d :: ds => c = d && beginsWith cs ds

/-- Python `pat in s` substring test. -/
def hasSub (pat : List Char) : List Char → Bool
  | [] => pat.isEmpty
  | d :: ds => beginsWith pat (d :: ds) || hasSub pat ds

/-- Kind of list a recognised track is appended to. -/
inductive TrackKind where
  | video
  | audio
  | subtitle
deriving DecidableEq, Repr

/-- Language resolution of the `probe` loop body (transcoder.py lines
132-138): a matched line with no language gets the forced language when one
is set; otherwise the language must be in the allowed list; `none` means
the track is skipped. -/
def resolveLanguage (cfg : Config) (dl : Option String) : Option String :=
  if cfg.force_language ≠ "" ∧ dl = none then some cfg.force_language
  else
    match dl with
    | none => none
    | some l => if l ∈ cfg.languages then some l else none

/-- One iteration of the `probe` loop body (transcoder.py lines 127-154):
match the stripped line, resolve the language, filter unknown formats,
construct the `Track`, and classify it.  `ok none` means the line is
skipped.  The `Except.error .typeError` case is Python's
`'5.1(side)' in d['other']` evaluated with `d['other'] = None` on an
Audio line. -/
def processLine (cfg : Config) (line : String) : Except PyError (Option (TrackKind × Track)) :=
  match matchLine (pyStrip line.toList) with
  | none => .ok none
  | some d =>
    match resolveLanguage cfg d.language with
    | none => .ok none
    | some lang =>
      if d.format ∈ FORMATS then
        let t : Track :=
          { file_id := d.file_id, track_id := d.track_id, language := lang,
            format := d.format, trackfile := some cfg.source, temporary := false,
            codec := "copy", surround := false, options := [] }
        if d.track_type = "Video" then .ok (some (.video, t))
        else if d.track_type = "Audio" then
          match d.other with
          | none => .error .typeError
          | some oth => .ok (some (.audio, { t with surround := hasSub "5.1(side)".toList oth.toList }))
        else if d.track_type = "Subtitle" then .ok (some (.subtitle, t))
        else .ok none
      else .ok none

/-- The `probe` loop over all inventory lines, threading the three
track-list accumulators (appended at the right, as Python `append` does). -/
def probeLoop (cfg : Config) :
    List String → List Track × List Track × List Track →
    Except PyError (List Track × List Track × List Track)
  | [], acc => .ok acc
  | line :: rest, (v, a, s) =>
    match processLine cfg line with
    | .error e => .error e
    | .ok none => probeLoop cfg rest (v, a, s)
    | .ok (some (.video, t)) => probeLoop cfg rest (v ++ [t], a, s)
    | .ok (some (.audio, t)) => probeLoop cfg rest (v, a ++ [t], s)
    | .ok (some (.subtitle, t)) => probeLoop cfg rest (v, a, s ++ [t])

/-- Embedding of `Transcoder.probe` (transcoder.py lines 123-154) on the
list of lines of the ffprobe report (Python splits the output on `'\n'`). -/
def probe (cfg : Config) (lines : List String) :
    Except PyError (List Track × List Track × List Track) :=
  probeLoop cfg lines ([], [], [])

/-- The `_name` category-label chain of `Track.name` (transcoder.py lines 75-84). -/
def trackLabel (t : Track) : Option String :=
  if t.format ∈ FORMATS_VIDEO then some "Video"
  else if t.format ∈ FORMATS_STEREO then some "Stereo"
  else if t.format ∈ FORMATS_SURROUND then some "Surround"
  else if t.format ∈ FORMATS_LOSSLESS then some "Lossless"
  else if t.format ∈ FORMATS_SUBTITLE then some "Subtitles"
  else none

/-- Language rendering of `Track.name` (transcoder.py lines 87-90): a code in
`DEFAULT_LANGUAGES` is replaced by its display name, any other code is used
verbatim. -/
def languageDisplay (l : String) : String :=
  match DEFAULT_LANGUAGES.lookup l with
  | some d => d
  | none => l

/-- Embedding of `Track.name` (transcoder.py lines 72-92).  Python returns
`None` (modelled as `none`) when the format has no category label; when the
label exists and `include_language` is set, the language is prepended. -/
def Track.name (t : Track) (include_language : Bool) : Option String :=
  match trackLabel t with
  | none => none
  | some n =>
    if include_language then some (languageDisplay t.language ++ " " ++ n)
    else some n

/-- Python `'%s' % x` where `x : Option String` stands for a value that can
be `None`: `None` renders as the string `"None"`. -/
def pyFormatOpt (o : Option String) : String :=
  match o with
  | some s => s
  | none => "None"

/-- Python `list.index`: the index of the first occurrence, or `ValueError`. -/
def pyIndex (l : List String) (x : String) : Except PyError Nat :=
  if x ∈ l then .ok (l.indexOf x) else .error .valueError

/-- Embedding of `Track.key` (transcoder.py lines 94-98); raises `ValueError`
when the language is not in the ranking or the format is not in `FORMATS`. -/
def Track.key (t : Track) (languages : List String) : Except PyError (Nat × Nat) :=
  match pyIndex languages t.language with
  | .error e => .error e
  | .ok i =>
    match pyIndex FORMATS t.format with
    | .error e => .error e
    | .ok j => .ok (i, j)

/-- Total version of the sort key, agreeing with `Track.key` whenever the
latter succeeds (`List.indexOf` defaults to the length when absent). -/
def Track.keyIdx (languages : List String) (t : Track) : Nat × Nat :=
  (languages.indexOf t.language, FORMATS.indexOf t.format)

/-- Whether `Track.key` succeeds for this track. -/
def keyDefined (languages : List String) (t : Track) : Bool :=
  t.language ∈ languages && t.format ∈ FORMATS

/-- Embedding of the `Track.map` property (transcoder.py lines 100-102). -/
def Track.map (t : Track) : String :=
  toString t.file_id ++ ":" ++ toString t.track_id

/-- Embedding of `Transcoder.dts_convert_audio` (transcoder.py lines 156-162). -/
def dts_convert_audio (track : Track) : Track :=
  { file_id := track.file_id, track_id := track.track_id,
    language := track.language, format := "dts", trackfile := none,
    temporary := false, codec := "dca", surround := false, options := [] }

/-- Embedding of `Transcoder.aac_convert_audio` (transcoder.py lines 164-171). -/
def aac_convert_audio (track : Track) : Track :=
  { file_id := track.file_id, track_id := track.track_id,
    language := track.language, format := "aac", trackfile := none,
    temporary := false, codec := "libfdk_aac", surround := false,
    options := ["-ac", "2", "-b:a", "192k", "-cutoff", "18000"] }

/-- One body of the conversion-policy loop (transcoder.py lines 181-194)
applied to the yielded track `t`, transforming the live audio list:
surround formats append a synthetic AAC track; convertible formats append a
synthetic AAC track and then remove the original; lossless formats append a
synthetic DTS track when the original is surround-flagged, append a
synthetic AAC track, and remove the original.  `List.erase` matches
Python's `list.remove` here: the yielded object occurs in the list, and any
structurally-equal earlier element would make the two results equal lists. -/
def planStep (t : Track) (l : List Track) : List Track :=
  if t.format ∈ FORMATS_SURROUND then l ++ [aac_convert_audio t]
  else if t.format ∈ FORMATS_CONVERT then (l ++ [aac_convert_audio t]).erase t
  else if t.format ∈ FORMATS_LOSSLESS then
    ((if t.surround then l ++ [dts_convert_audio t] else l) ++ [aac_convert_audio t]).erase t
  else l

/-- The `for track in islice(self.audio_tracks, len(self.audio_tracks))`
loop (transcoder.py line 180): `fuel` is the remaining `islice` budget
(initially the pre-loop list length), `i` the position of the underlying
list iterator over the LIVE, mutated list.  Removals shift later elements
one position left without adjusting `i`, so the element following a removed
track is skipped, and appended synthetic tracks can be yielded once the
removals bring them within reach of `i`. -/
def planLoop : Nat → Nat → List Track → List Track
  | 0, _, l => l
  | fuel + 1, i, l =>
    match l.get? i with
    | none => l
    | some t => planLoop fuel (i + 1) (planStep t l)

/-- The conversion-planning pass over the audio list (transcoder.py
lines 180-194). -/
def plan (audio_tracks : List Track) : List Track :=
  planLoop audio_tracks.length 0 audio_tracks

/-- The lexicographic tuple order Python uses to compare sort keys. -/
def pairLe (a b : Nat × Nat) : Prop :=
  a.1 < b.1 ∨ (a.1 = b.1 ∧ a.2 ≤ b.2)

instance (a b : Nat × Nat) : Decidable (pairLe a b) := by
  unfold pairLe
  infer_instance

/-- Track comparison by sort key (the `key=lambda x: x.key(self.languages)`
of transcoder.py lines 196-198, with Python's tuple ordering). -/
def trackLe (languages : List String) (a b : Track) : Prop :=
  pairLe (Track.keyIdx languages a) (Track.keyIdx languages b)

instance (languages : List String) : DecidableRel (trackLe languages) := by
  unfold trackLe
  infer_instance

instance (languages : List String) : IsTotal Track (trackLe languages) where
  total a b := by
    unfold trackLe pairLe
    omega

instance (languages : List String) : IsTrans Track (trackLe languages) where
  trans a b c := by
    unfold trackLe pairLe
    omega

/-- Python `sorted` with the track key: a stable sort; `insertionSort`
inserts earlier elements in front of later key-equal ones, so it computes
the same list as any stable sort by the same key. -/
def sortTracks (languages : List String) (l : List Track) : List Track :=
  List.insertionSort (trackLe languages) l

/-- Python `sorted` raises `ValueError` (from `Track.key`) before producing
anything when some element's key is undefined; the sort itself is
`sortTracks`. -/
def checkKeys (languages : List String) : List Track → Except PyError Unit
  | [] => .ok ()
  | t :: ts =>
    match Track.key t languages with
    | .error e => .error e
    | .ok _ => checkKeys languages ts

/-- The video/audio additional-input loops (transcoder.py lines 208-216):
each temporary track gets `file_id` rewritten to the running counter and
contributes `['-i', trackfile]`.  A temporary track with `trackfile = None`
is an error (Python would hit `TypeError` at the `' '.join(cmd)` on
line 288; we surface it here, before the same run fails). -/
def renumberTemps : List Track → Nat → Except PyError (List Track × List String × Nat)
  | [], n => .ok ([], [], n)
  | t :: ts, n =>
    if t.temporary then
      match t.trackfile with
      | none => .error .typeError
      | some f =>
        match renumberTemps ts (n + 1) with
        | .error e => .error e
        | .ok (ts1, args, n1) => .ok ({ t with file_id := n } :: ts1, "-i" :: f :: args, n1)
    else
      match renumberTemps ts n with
      | .error e => .error e
      | .ok (ts1, args, n1) => .ok (t :: ts1, args, n1)

/-- Index of the last temporary track of a list, if any: the audio object
that the loop variable `a` of line 213 still refers to afterwards. -/
def lastTempIdx (l : List Track) : Option Nat :=
  (List.range l.length).foldl
    (fun acc i => if (l.get? i).any (fun t => t.temporary) then some i else acc) none

/-- The subtitle additional-input loop (transcoder.py lines 218-221).  The
source assigns `a.file_id = num_files` — the stale AUDIO loop variable —
so each temporary subtitle rewrites the last temporary audio track's
`file_id` (a `NameError` if no such audio track exists) while the subtitle
itself keeps its `file_id`; returns the (possibly rewritten) audio list,
the `['-i', s.trackfile]` arguments and the updated counter. -/
def renumberSubs (audio : List Track) (aIdx : Option Nat) :
    List Track → Nat → Except PyError (List Track × List String × Nat)
  | [], n => .ok (audio, [], n)
  | t :: ts, n =>
    if t.temporary then
      match aIdx with
      | none => .error .nameError
      | some j =>
        match t.trackfile with
        | none => .error .typeError
        | some f =>
          let audio1 :=
            match audio.get? j with
            | none => audio
            | some aj => audio.set j { aj with file_id := n }
          match renumberSubs audio1 aIdx ts (n + 1) with
          | .error e => .error e
          | .ok (au2, args, n1) => .ok (au2, "-i" :: f :: args, n1)
    else
      match renumberSubs audio aIdx ts n with
      | .error e => .error e
      | .ok (au2, args, n1) => .ok (au2, args, n1)

/-- The `-map` arguments for one track list (transcoder.py lines 225-232). -/
def mapArgs : List Track → List String
  | [] => []
  | t :: ts => "-map" :: Track.map t :: mapArgs ts

/-- The codec directives for the video or audio list (transcoder.py
lines 236-246): `-c:<tag>:<i>` plus the track's own codec, followed by its
`options` when truthy. -/
def codecKind (tag : String) (i : Nat) : List Track → List String
  | [] => []
  | t :: ts =>
    ("-c:" ++ tag ++ ":" ++ toString i) :: t.codec ::
      ((if t.options.isEmpty then [] else t.options) ++ codecKind tag (i + 1) ts)

/-- The subtitle codec directives (transcoder.py lines 248-251): codec fixed
to `mov_text`, but `if track.options` reads the loop variable left over from
the audio (or video) codec loop — `lastT`; its options are appended after
EVERY subtitle directive, and if no such variable was ever bound the access
raises `NameError`. -/
def codecSubs (lastT : Option Track) (i : Nat) : List Track → Except PyError (List String)
  | [] => .ok []
  | _ :: ts =>
    match lastT with
    | none => .error .nameError
    | some tr =>
      match codecSubs (some tr) (i + 1) ts with
      | .error e => .error e
      | .ok rest =>
        .ok (("-c:s:" ++ toString i) :: "mov_text" ::
          ((if tr.options.isEmpty then [] else tr.options) ++ rest))

/-- `len(set(languages of the list)) > 1` (transcoder.py lines 255-259):
whether titles of that kind-group must show the language. -/
def showLanguageFlag (tracks : List Track) : Bool :=
  decide (1 < (tracks.map (fun t => t.language)).dedup.length)

/-- The metadata directives for one track list (transcoder.py lines
261-274): language and title per per-kind positional index; a `None` title
renders as the string `"None"` under Python `%s` formatting. -/
def metadataKind (tag : String) (incl : Bool) (i : Nat) : List Track → List String
  | [] => []
  | t :: ts =>
    ("-metadata:s:" ++ tag ++ ":" ++ toString i) :: ("language=" ++ t.language) ::
      ("-metadata:s:" ++ tag ++ ":" ++ toString i) ::
        ("title=" ++ pyFormatOpt (Track.name t incl)) ::
          metadataKind tag incl (i + 1) ts

/-- The `-strict -2` compatibility flag emitted when any audio track uses
the `dca` encoder (transcoder.py lines 278-281). -/
def dcaFlagArgs (audio : List Track) : List String :=
  if audio.any (fun a => a.codec = "dca") then ["-strict", "-2"] else []

/-- `os.path.basename` for POSIX paths: the part after the last `/`. -/
def pyBasename (s : String) : String :=
  String.mk ((s.toList.reverse.takeWhile (fun c => c ≠ '/')).reverse)

/-- Root part of `os.path.splitext`: drop the suffix starting at the last
dot, unless every character before that dot is itself a dot. -/
def splitextRoot (s : String) : String :=
  match (s.toList.reverse.dropWhile (fun c => c ≠ '.')) with
  | [] => s
  | _ :: before =>
    if before.reverse.all (fun c => c = '.') then s
    else String.mk before.reverse

/-- `self.basename` (transcoder.py line 108). -/
def transcodeBasename (source : String) : String :=
  splitextRoot (pyBasename source)

/-- Result of one `Transcoder.transcode` run: the final three track lists
and the assembled ffmpeg argument list (`none` when the run stopped at the
"nothing to convert" early return and no external encode is invoked). -/
structure TranscodeResult where
  video_tracks : List Track
  audio_tracks : List Track
  subs_tracks : List Track
  cmd : Option (List String)
deriving DecidableEq, Repr

/-- Embedding of `Transcoder.transcode` (transcoder.py lines 173-309):
early return on three empty lists; conversion planning over the audio list;
the three stable sorts (raising `ValueError` on an unknown language or
format); additional-input renumbering; and assembly of the mapping, codec,
metadata and container arguments.  The `track` variable read by the
subtitle codec loop is the last track of the audio codec loop when audio is
non-empty, else the last of the video codec loop, else unbound
(`NameError`) — the planning-loop binding of `track` is shadowed whenever
audio was non-empty. -/
def transcode (cfg : Config) (video_tracks audio_tracks subs_tracks : List Track) :
    Except PyError TranscodeResult :=
  if video_tracks.isEmpty && audio_tracks.isEmpty && subs_tracks.isEmpty then
    .ok ⟨video_tracks, audio_tracks, subs_tracks, none⟩
  else
    let audio1 := plan audio_tracks
    match checkKeys cfg.languages video_tracks with
    | .error e => .error e
    | .ok _ =>
      match checkKeys cfg.languages audio1 with
      | .error e => .error e
      | .ok _ =>
        match checkKeys cfg.languages subs_tracks with
        | .error e => .error e
        | .ok _ =>
          let video2 := sortTracks cfg.languages video_tracks
          let audio2 := sortTracks cfg.languages audio1
          let subs2 := sortTracks cfg.languages subs_tracks
          match renumberTemps video2 1 with
          | .error e => .error e
          | .ok (video3, argsV, n1) =>
            match renumberTemps audio2 n1 with
            | .error e => .error e
            | .ok (audio3, argsA, n2) =>
              match renumberSubs audio3 (lastTempIdx audio3) subs2 n2 with
              | .error e => .error e
              | .ok (audio4, argsS, _) =>
                match codecSubs ((audio4.getLast?).orElse fun _ => video3.getLast?) 0 subs2 with
                | .error e => .error e
                | .ok codecS =>
                  let cmd :=
                    [FFMPEG_PATH, "-loglevel", cfg.ffmpeg_loglevel, "-i", cfg.source] ++
                      argsV ++ argsA ++ argsS ++
                      mapArgs video3 ++ mapArgs audio4 ++ mapArgs subs2 ++
                      codecKind "v" 0 video3 ++ codecKind "a" 0 audio4 ++ codecS ++
                      metadataKind "v" (showLanguageFlag video3) 0 video3 ++
                      metadataKind "a" (showLanguageFlag audio4) 0 audio4 ++
                      metadataKind "s" true 0 subs2 ++
                      dcaFlagArgs audio4 ++
                      ["-f", "mp4", "-y", transcodeBasename cfg.source ++ ".transcoded.m4v"]
                  .ok ⟨video3, audio4, subs2, some cmd⟩

/-- Pair `(containerIndex, streamIndex)` of a track. -/
def trackPair (t : Track) : Nat × Nat :=
  (t.file_id, t.track_id)

/-- The `(file_id, track_id)` pairs of all inventory lines that match
`FFPROBE_REGEX` (whether or not the corresponding track is kept). -/
def matchedPairs (lines : List String) : List (Nat × Nat) :=
  lines.filterMap (fun l => (matchLine (pyStrip l.toList)).map (fun d => (d.file_id, d.track_id)))

/-- Standard configuration used by the concrete runs below. -/
def cfgStd : Config :=
  ⟨"movie.mkv", ["eng", "rus"], "", "error"⟩

/-- A discovered convertible (vorbis) audio track, stream 0:1. -/
def vorbT1 : Track :=
  ⟨0, 1, "eng", "vorbis", some "movie.mkv", false, "copy", false, []⟩

/-- A discovered convertible (vorbis) audio track, stream 0:2. -/
def vorbT2 : Track :=
  ⟨0, 2, "eng", "vorbis", some "movie.mkv", false, "copy", false, []⟩

/-- A discovered subrip subtitle track, stream 0:2. -/
def subT02 : Track :=
  ⟨0, 2, "eng", "subrip", some "movie.mkv", false, "copy", false, []⟩

/-- A discovered surround (ac3) audio track, stream 0:1. -/
def ac3T01 : Track :=
  ⟨0, 1, "eng", "ac3", some "movie.mkv", false, "copy", false, []⟩

/-- Configuration forcing the untagged-track language to `deu`, which is not
in the allowed/ranking list `["eng"]`. -/
def cfgForce : Config :=
  ⟨"movie.mkv", ["eng"], "deu", "error"⟩

/-- The track produced from an untagged ac3 line under `cfgForce`. -/
def deuT : Track :=
  ⟨0, 1, "deu", "ac3", some "movie.mkv", false, "copy", false, []⟩

/-- A discovered convertible (vorbis) audio track with language rus, stream 0:1. -/
def vorbRus1 : Track :=
  ⟨0, 1, "rus", "vorbis", some "movie.mkv", false, "copy", false, []⟩

/-- A concrete flac+surround track for the C4 witness. -/
def flacS : Track :=
  ⟨0, 1, "eng", "flac", some "movie.mkv", false, "copy", true, []⟩

/-- A second surround track with a different language, for the C8 witness. -/
def rusAc3T : Track :=
  ⟨0, 2, "rus", "ac3", some "movie.mkv", false, "copy", false, []⟩

/-- The result of the concrete run `transcode cfgStd [] [ac3T01] []`. -/
def resAc3 : TranscodeResult :=
  ⟨[], [aac_convert_audio ac3T01, ac3T01], [],
    some ["ffmpeg", "-loglevel", "error", "-i", "movie.mkv",
          "-map", "0:1", "-map", "0:1",
          "-c:a:0", "libfdk_aac", "-ac", "2", "-b:a", "192k", "-cutoff", "18000",
          "-c:a:1", "copy",
          "-metadata:s:a:0", "language=eng", "-metadata:s:a:0", "title=Stereo",
          "-metadata:s:a:1", "language=eng", "-metadata:s:a:1", "title=Surround",
          "-f", "mp4", "-y", "movie.transcoded.m4v"]⟩

example : matchLine (pyStrip "Stream #0:1(eng): Audio: ac3 (stuff), 5.1(side) x".toList) =
    some ⟨0, 1, some "eng", "Audio", "ac3", some "stuff", some "5.1(side) x"⟩ := by decide

example : matchLine "Stream #0:0: Video: h264".toList =
    some ⟨0, 0, none, "Video", "h264", none, none⟩ := by decide

/-- Claim C9: with all three track lists empty, `transcode` stops at the
"nothing to convert" early return: the result carries the unchanged (empty)
lists and no ffmpeg command — no conversion planning, no assembled plan, no
external encoder invocation. -/
theorem transcode_empty_noop (cfg : Config) :
    transcode cfg [] [] [] = .ok ⟨[], [], [], none⟩ := rfl

/-- Claim C1 (failing run): with two convertible (vorbis) audio tracks, the
conversion-planning loop mutates the list it iterates: after the first
track is replaced, the element shift makes the iterator skip the second
vorbis track and yield the freshly appended synthetic track instead, so the
second original survives planning unconverted (still `format = "vorbis"`,
`codec = "copy"`) and no synthetic AAC track is derived from it — contrary
to the claim that every convertible track is replaced by a synthetic
stereo-AAC track. -/
theorem plan_skips_second_convertible :
    plan [vorbT1, vorbT2] = [vorbT2, aac_convert_audio vorbT1] := by decide

/-- Claim C3 (failing run): an Audio inventory line that matches the stream
pattern but has no parenthesized codec detail and no trailing descriptive
text leaves the `other` group as `None`, and `probe` then evaluates
`'5.1(side)' in None`, raising `TypeError` instead of recording the track
with `isSurroundLayout = false`; the same shape of line is parsed fine for
a Video track. -/
theorem probe_audio_missing_trailing_raises :
    probe cfgStd ["Stream #0:1(eng): Audio: ac3"] = .error .typeError ∧
      probe cfgStd ["Stream #0:0(eng): Video: h264"] =
        .ok ([⟨0, 0, "eng", "h264", some "movie.mkv", false, "copy", false, []⟩], [], []) := by
  constructor
  · decide
  · decide

/-- Claim C5 (failing run): one vorbis audio track (planned into a synthetic
AAC track carrying encoder options) and one subrip subtitle.  The subtitle
codec loop reads the stale `track` variable left over from the audio codec
loop, so the assembled command contains
`-c:s:0 mov_text -ac 2 -b:a 192k -cutoff 18000`: the subtitle codec
directive is followed by the AAC track's encoder options, i.e. a codec
directive includes options belonging to a different track. -/
theorem subs_codec_options_leak :
    transcode cfgStd [] [vorbT1] [subT02] =
      .ok ⟨[], [aac_convert_audio vorbT1], [subT02],
        some ["ffmpeg", "-loglevel", "error", "-i", "movie.mkv",
              "-map", "0:1", "-map", "0:2",
              "-c:a:0", "libfdk_aac", "-ac", "2", "-b:a", "192k", "-cutoff", "18000",
              "-c:s:0", "mov_text", "-ac", "2", "-b:a", "192k", "-cutoff", "18000",
              "-metadata:s:a:0", "language=eng", "-metadata:s:a:0", "title=Stereo",
              "-metadata:s:s:0", "language=eng", "-metadata:s:s:0", "title=English Subtitles",
              "-f", "mp4", "-y", "movie.transcoded.m4v"]⟩ := by decide

/-- Claim C2 (counterexample): a probed ac3 audio track is kept by planning
and a synthetic stereo-AAC track with the SAME `(containerIndex,
streamIndex)` pair `(0, 1)` is appended to the same audio list, so after
conversion planning the audio list does contain two tracks with the same
pair — the claimed no-duplicate invariant fails at the planning stage. -/
theorem plan_duplicate_pair_cex :
    probe cfgStd ["Stream #0:1(eng): Audio: ac3, stereo"] = .ok ([], [ac3T01], []) ∧
      (plan [ac3T01]).map trackPair = [(0, 1), (0, 1)] ∧
      ¬ ((plan [ac3T01]).map trackPair).Nodup := by
  refine ⟨by decide, by decide, by decide⟩

/-- Claim C6 (counterexample): a track whose language was assigned by the
forced-language override reaches the ordering stage with a language
(`"deu"`) that is NOT in the language ranking, so `Track.key` raises
`ValueError` and the whole `transcode` run fails — computing the sort key
does not succeed for every track that reaches ordering. -/
theorem forced_language_key_error_cex :
    probe cfgForce ["Stream #0:1: Audio: ac3, stereo"] = .ok ([], [deuT], []) ∧
      Track.key deuT ["eng"] = .error .valueError ∧
      transcode cfgForce [] [deuT] [] = .error .valueError := by
  refine ⟨by decide, by decide, by decide⟩

/-- Claim C8 (counterexample): a reachable run (two vorbis audio tracks with
different languages; the planning loop's iterator skip leaves the second
one in the list) whose final audio group has more than one distinct
language, yet the surviving vorbis track's title is `None` (no category
label, hence no language shown, rendered as the string "None" in the
metadata) — contradicting "includes its language exactly when the distinct
languages of its kind-group number more than one". -/
theorem vorbis_title_none_cex :
    probe cfgStd ["Stream #0:1(rus): Audio: vorbis, stereo",
                  "Stream #0:2(eng): Audio: vorbis, stereo"] =
        .ok ([], [vorbRus1, vorbT2], []) ∧
      plan [vorbRus1, vorbT2] = [vorbT2, aac_convert_audio vorbRus1] ∧
      showLanguageFlag [vorbT2, aac_convert_audio vorbRus1] = true ∧
      Track.name vorbT2 true = none ∧
      pyFormatOpt (Track.name vorbT2 true) = "None" := by
  refine ⟨by decide, by decide, by decide, by decide, by decide⟩

/-- Claim C4: planning a lossless (flac) track with the surround marker set
appends a synthetic DTS track (codec `dca`) and a synthetic stereo-AAC
track and removes the original, leaving exactly `[dts, aac]` in that
order. -/
theorem plan_flac_surround (t : Track) (hf : t.format = "flac") (hs : t.surround = true) :
    plan [t] = [dts_convert_audio t, aac_convert_audio t] := by
  have hni : t.format ∉ FORMATS_SURROUND := by rw [hf]; decide
  have hnc : t.format ∉ FORMATS_CONVERT := by rw [hf]; decide
  have hl : t.format ∈ FORMATS_LOSSLESS := by rw [hf]; decide
  show planLoop 1 0 [t] = _
  have h1 : planLoop 1 0 [t] = planStep t [t] := rfl
  rw [h1, planStep, if_neg hni, if_neg hnc, if_pos hl, if_pos hs]
  simp

/-- Witness for `plan_flac_surround` at the concrete track `flacS`. -/
theorem plan_flac_surround_witness :
    flacS.format = "flac" ∧ flacS.surround = true ∧
      plan [flacS] = [dts_convert_audio flacS, aac_convert_audio flacS] :=
  ⟨rfl, rfl, plan_flac_surround flacS rfl rfl⟩

/-- Filtering commutes with `orderedInsert` of an element satisfying `p`,
provided nothing the insertion walks past can satisfy `p`: the inserted
element lands in front of the filtered tail. -/
theorem filter_orderedInsert_pos {α : Type _} (r : α → α → Prop) [DecidableRel r]
    (p : α → Bool) (x : α) (hx : p x = true) (h : ∀ y, ¬ r x y → p y = false) :
    ∀ l : List α, (List.orderedInsert r x l).filter p = x :: l.filter p
  | [] => by simp [List.orderedInsert, hx]
  | y :: l => by
    by_cases hr : r x y
    · simp [List.orderedInsert, hr, hx]
    · have hpy := h y hr
      simp only [List.orderedInsert, if_neg hr, List.filter_cons, hpy]
      simp [filter_orderedInsert_pos r p x hx h l, hpy]

/-- Filtering ignores `orderedInsert` of an element not satisfying `p`. -/
theorem filter_orderedInsert_neg {α : Type _} (r : α → α → Prop) [DecidableRel r]
    (p : α → Bool) (x : α) (hx : p x = false) :
    ∀ l : List α, (List.orderedInsert r x l).filter p = l.filter p
  | [] => by simp [List.orderedInsert, hx]
  | y :: l => by
    by_cases hr : r x y
    · simp [List.orderedInsert, hr, hx]
    · simp only [List.orderedInsert, if_neg hr, List.filter_cons]
      rw [filter_orderedInsert_neg r p x hx l]

/-- Stability of `insertionSort`: the sublist of elements satisfying `p` is
untouched, whenever `p`-elements can only be blocked (during insertion) by
non-`p` elements. -/
theorem filter_insertionSort {α : Type _} (r : α → α → Prop) [DecidableRel r]
    (p : α → Bool) (h : ∀ x y, p x = true → ¬ r x y → p y = false) :
    ∀ l : List α, (List.insertionSort r l).filter p = l.filter p
  | [] => rfl
  | a :: l => by
    cases hpa : p a with
    | true =>
      rw [List.insertionSort,
        filter_orderedInsert_pos r p a hpa (fun y hy => h a y hpa hy),
        filter_insertionSort r p h l]
      simp [List.filter_cons, hpa]
    | false =>
      rw [List.insertionSort, filter_orderedInsert_neg r p a hpa,
        filter_insertionSort r p h l]
      simp [List.filter_cons, hpa]

/-- Claim C7: the sort used for the three final track lists
(transcoder.py lines 196-198) is a permutation of its input, is sorted by
the key `(index of language in the ranking, index of format in FORMATS)`
compared lexicographically, and is stable: for every key value, the
sublist of tracks having that key is exactly as in the input, so tracks
with equal keys keep their original relative order. -/
theorem sortTracks_spec (languages : List String) (l : List Track) :
    (sortTracks languages l).Perm l ∧
      List.Sorted (trackLe languages) (sortTracks languages l) ∧
      ∀ k : Nat × Nat,
        (sortTracks languages l).filter (fun t => decide (Track.keyIdx languages t = k)) =
          l.filter (fun t => decide (Track.keyIdx languages t = k)) := by
  refine ⟨List.perm_insertionSort _ l, List.sorted_insertionSort _ l, fun k => ?_⟩
  apply filter_insertionSort
  intro x y hpx hr
  simp only [decide_eq_true_eq] at hpx
  apply decide_eq_false
  intro hpy
  apply hr
  rw [trackLe, hpx, hpy]
  exact Or.inr ⟨rfl, le_refl _⟩

/-- A resolved language is either an allowed language or the (non-empty)
forced language. -/
theorem resolveLanguage_mem (cfg : Config) (dl : Option String) (lang : String)
    (h : resolveLanguage cfg dl = some lang) :
    lang ∈ cfg.languages ∨ (lang = cfg.force_language ∧ cfg.force_language ≠ "") := by
  unfold resolveLanguage at h
  by_cases hc : cfg.force_language ≠ "" ∧ dl = none
  · rw [if_pos hc] at h
    exact Or.inr ⟨(Option.some.inj h).symm, hc.1⟩
  · rw [if_neg hc] at h
    cases dl with
    | none => exact absurd h (by simp)
    | some l =>
      dsimp only at h
      by_cases hl : l ∈ cfg.languages
      · rw [if_pos hl] at h
        exact Or.inl ((Option.some.inj h) ▸ hl)
      · rw [if_neg hl] at h
        exact absurd h (by simp)

/-- Every track emitted by one `probe` loop iteration comes from the
regex match of its line: its ids are the matched ids, its format is the
matched (recognised) format, its language passed `resolveLanguage`, and the
constructor defaults (`temporary = false`, `codec = "copy"`,
`trackfile = source`, `options = []`) are in force. -/
theorem processLine_shape (cfg : Config) (line : String) (k : TrackKind) (t : Track)
    (h : processLine cfg line = .ok (some (k, t))) :
    ∃ d, matchLine (pyStrip line.toList) = some d ∧
      t.file_id = d.file_id ∧ t.track_id = d.track_id ∧
      t.format = d.format ∧ t.format ∈ FORMATS ∧
      t.temporary = false ∧ t.trackfile = some cfg.source ∧
      t.codec = "copy" ∧ t.options = [] ∧
      resolveLanguage cfg d.language = some t.language := by
  unfold processLine at h
  cases hm : matchLine (pyStrip line.toList) with
  | none => rw [hm] at h; exact absurd h (by simp)
  | some d =>
    rw [hm] at h
    dsimp only at h
    refine ⟨d, rfl, ?_⟩
    cases hlr : resolveLanguage cfg d.language with
    | none => rw [hlr] at h; exact absurd h (by simp)
    | some lang =>
      rw [hlr] at h
      dsimp only at h
      by_cases hfmt : d.format ∈ FORMATS
      · rw [if_pos hfmt] at h
        by_cases hv : d.track_type = "Video"
        · rw [if_pos hv] at h
          obtain ⟨rfl⟩ : t = _ := by
            have := Except.ok.inj h
            exact (Prod.mk.injEq _ _ _ _ ▸ Option.some.inj this).2.symm
          exact ⟨rfl, rfl, rfl, hfmt, rfl, rfl, rfl, rfl, rfl⟩
        · rw [if_neg hv] at h
          by_cases ha : d.track_type = "Audio"
          · rw [if_pos ha] at h
            cases ho : d.other with
            | none => rw [ho] at h; exact absurd h (by simp)
            | some oth =>
              rw [ho] at h
              dsimp only at h
              obtain ⟨rfl⟩ : t = _ := by
                have := Except.ok.inj h
                exact (Prod.mk.injEq _ _ _ _ ▸ Option.some.inj this).2.symm
              exact ⟨rfl, rfl, rfl, hfmt, rfl, rfl, rfl, rfl, rfl⟩
          · rw [if_neg ha] at h
            by_cases hsb : d.track_type = "Subtitle"
            · rw [if_pos hsb] at h
              obtain ⟨rfl⟩ : t = _ := by
                have := Except.ok.inj h
                exact (Prod.mk.injEq _ _ _ _ ▸ Option.some.inj this).2.symm
              exact ⟨rfl, rfl, rfl, hfmt, rfl, rfl, rfl, rfl, rfl⟩
            · rw [if_neg hsb] at h
              exact absurd h (by simp)
      · rw [if_neg hfmt] at h
        exact absurd h (by simp)

/-- A per-track property established line-by-line holds of every track in
the three lists produced by the probe loop. -/
theorem probeLoop_pred (cfg : Config) (P : Track → Prop)
    (hline : ∀ line k t, processLine cfg line = .ok (some (k, t)) → P t) :
    ∀ (lines : List String) (v a s v' a' s' : List Track),
      (∀ t, t ∈ v ++ a ++ s → P t) →
      probeLoop cfg lines (v, a, s) = .ok (v', a', s') →
      ∀ t, t ∈ v' ++ a' ++ s' → P t := by
  intro lines
  induction lines with
  | nil =>
    intro v a s v' a' s' hacc h
    simp only [probeLoop, Except.ok.injEq, Prod.mk.injEq] at h
    obtain ⟨rfl, rfl, rfl⟩ := h
    exact hacc
  | cons line rest ih =>
    intro v a s v' a' s' hacc h
    simp only [probeLoop] at h
    cases hp : processLine cfg line with
    | error e => rw [hp] at h; exact absurd h (by simp)
    | ok o =>
      rw [hp] at h
      rcases o with _ | ⟨k, t0⟩
      · exact ih v a s v' a' s' hacc h
      · have ht0 : P t0 := hline line k t0 hp
        cases k with
        | video =>
          refine ih (v ++ [t0]) a s v' a' s' ?_ h
          intro u hu
          simp only [List.mem_append, List.mem_singleton] at hu hacc ⊢
          rcases hu with ((hu | rfl) | hu) | hu
          · exact hacc u (Or.inl (Or.inl hu))
          · exact ht0
          · exact hacc u (Or.inl (Or.inr hu))
          · exact hacc u (Or.inr hu)
        | audio =>
          refine ih v (a ++ [t0]) s v' a' s' ?_ h
          intro u hu
          simp only [List.mem_append, List.mem_singleton] at hu hacc ⊢
          rcases hu with (hu | (hu | rfl)) | hu
          · exact hacc u (Or.inl (Or.inl hu))
          · exact hacc u (Or.inl (Or.inr hu))
          · exact ht0
          · exact hacc u (Or.inr hu)
        | subtitle =>
          refine ih v a (s ++ [t0]) v' a' s' ?_ h
          intro u hu
          simp only [List.mem_append, List.mem_singleton] at hu hacc ⊢
          rcases hu with (hu | hu) | (hu | rfl)
          · exact hacc u (Or.inl (Or.inl hu))
          · exact hacc u (Or.inl (Or.inr hu))
          · exact hacc u (Or.inr hu)
          · exact ht0

/-- Inserting one element in the middle of the right list preserves
sublists. -/
theorem sublist_append_middle {α : Type _} (l1 l2 l3 : List α) (p : α)
    (h : List.Sublist l1 (l2 ++ l3)) : List.Sublist l1 (l2 ++ p :: l3) :=
  h.trans ((List.append_sublist_append_left l2).mpr (List.sublist_cons_self p l3))

/-- The `(file_id, track_id)` pairs of each list produced by the probe loop
form a sublist of the accumulator's pairs followed by the pairs of all
matched lines. -/
theorem probeLoop_pairs (cfg : Config) :
    ∀ (lines : List String) (v a s v' a' s' : List Track),
      probeLoop cfg lines (v, a, s) = .ok (v', a', s') →
      List.Sublist (v'.map trackPair) (v.map trackPair ++ matchedPairs lines) ∧
          List.Sublist (a'.map trackPair) (a.map trackPair ++ matchedPairs lines) ∧
          List.Sublist (s'.map trackPair) (s.map trackPair ++ matchedPairs lines) := by
  intro lines
  induction lines with
  | nil =>
    intro v a s v' a' s' h
    simp only [probeLoop, Except.ok.injEq, Prod.mk.injEq] at h
    obtain ⟨rfl, rfl, rfl⟩ := h
    simp [matchedPairs]
  | cons line rest ih =>
    intro v a s v' a' s' h
    simp only [probeLoop] at h
    have hmp : matchedPairs (line :: rest) =
        ((matchLine (pyStrip line.toList)).map
          (fun d => (d.file_id, d.track_id))).toList ++ matchedPairs rest := by
      simp only [matchedPairs, List.filterMap_cons]
      cases matchLine (pyStrip line.toList) <;> simp
    cases hp : processLine cfg line with
    | error e => rw [hp] at h; exact absurd h (by simp)
    | ok o =>
      rw [hp] at h
      rcases o with _ | ⟨k, t0⟩
      · obtain ⟨h1, h2, h3⟩ := ih v a s v' a' s' h
        rw [hmp]
        cases matchLine (pyStrip line.toList) with
        | none => simpa using ⟨h1, h2, h3⟩
        | some d =>
          exact ⟨sublist_append_middle _ _ _ _ h1, sublist_append_middle _ _ _ _ h2,
            sublist_append_middle _ _ _ _ h3⟩
      · obtain ⟨d, hmd, hf, ht, -⟩ := processLine_shape cfg line k t0 hp
        have hpair : (matchLine (pyStrip line.toList)).map
            (fun x => (x.file_id, x.track_id)) = some (trackPair t0) := by
          rw [hmd]
          simp [trackPair, hf, ht]
        rw [hmp, hmd] at *
        have hpt : (d.file_id, d.track_id) = trackPair t0 := Option.some.inj hpair
        cases k with
        | video =>
          obtain ⟨h1, h2, h3⟩ := ih (v ++ [t0]) a s v' a' s' h
          rw [List.map_append] at h1
          refine ⟨?_, ?_, ?_⟩
          · simpa [hpt, List.append_assoc] using h1
          · simpa [hpt] using sublist_append_middle _ _ _ _ h2
          · simpa [hpt] using sublist_append_middle _ _ _ _ h3
        | audio =>
          obtain ⟨h1, h2, h3⟩ := ih v (a ++ [t0]) s v' a' s' h
          rw [List.map_append] at h2
          refine ⟨?_, ?_, ?_⟩
          · simpa [hpt] using sublist_append_middle _ _ _ _ h1
          · simpa [hpt, List.append_assoc] using h2
          · simpa [hpt] using sublist_append_middle _ _ _ _ h3
        | subtitle =>
          obtain ⟨h1, h2, h3⟩ := ih v a (s ++ [t0]) v' a' s' h
          rw [List.map_append] at h3
          refine ⟨?_, ?_, ?_⟩
          · simpa [hpt] using sublist_append_middle _ _ _ _ h1
          · simpa [hpt] using sublist_append_middle _ _ _ _ h2
          · simpa [hpt, List.append_assoc] using h3

/-- Claim C2 (amended): after parsing, no per-kind track list contains two
tracks with the same `(containerIndex, streamIndex)` pair, provided the
matched inventory lines themselves carry pairwise-distinct pairs; the
invariant does NOT survive conversion planning, where a kept surround
track and the synthetic stereo-AAC track derived from it share the same
pair: the planned audio list of the probed ac3 track `ac3T01` has the
duplicate pair list `[(0, 1), (0, 1)]`. -/
theorem probe_pairs_nodup :
    (∀ (cfg : Config) (lines : List String) (v a s : List Track),
        (matchedPairs lines).Nodup → probe cfg lines = .ok (v, a, s) →
        (v.map trackPair).Nodup ∧ (a.map trackPair).Nodup ∧ (s.map trackPair).Nodup)
    ∧ (plan [ac3T01]).map trackPair = [(0, 1), (0, 1)] := by
  constructor
  · intro cfg lines v a s hnd hp
    obtain ⟨h1, h2, h3⟩ := probeLoop_pairs cfg lines [] [] [] v a s hp
    simp only [List.map_nil, List.nil_append] at h1 h2 h3
    exact ⟨hnd.sublist h1, hnd.sublist h2, hnd.sublist h3⟩
  · decide

/-- Witness for `probe_pairs_nodup` at a concrete one-line inventory. -/
theorem probe_pairs_nodup_witness :
    (matchedPairs ["Stream #0:1(eng): Audio: ac3, stereo"]).Nodup ∧
      ([ac3T01].map trackPair).Nodup :=
  ⟨by decide,
    (probe_pairs_nodup.1 cfgStd ["Stream #0:1(eng): Audio: ac3, stereo"] [] [ac3T01] []
      (by decide) (by decide)).2.1⟩

/-- Membership in the planning-step output: every element was already in
the list or is one of the two synthetic conversions of the processed
track. -/
theorem planStep_mem (t : Track) (l : List Track) (u : Track) (hu : u ∈ planStep t l) :
    u ∈ l ∨ u = aac_convert_audio t ∨ u = dts_convert_audio t := by
  unfold planStep at hu
  by_cases h1 : t.format ∈ FORMATS_SURROUND
  · rw [if_pos h1] at hu
    rcases List.mem_append.mp hu with h | h
    · exact Or.inl h
    · exact Or.inr (Or.inl (List.mem_singleton.mp h))
  · rw [if_neg h1] at hu
    by_cases h2 : t.format ∈ FORMATS_CONVERT
    · rw [if_pos h2] at hu
      rcases List.mem_append.mp ((List.erase_subset _ _) hu) with h | h
      · exact Or.inl h
      · exact Or.inr (Or.inl (List.mem_singleton.mp h))
    · rw [if_neg h2] at hu
      by_cases h3 : t.format ∈ FORMATS_LOSSLESS
      · rw [if_pos h3] at hu
        rcases List.mem_append.mp ((List.erase_subset _ _) hu) with h | h
        · by_cases hs : t.surround
          · rw [if_pos hs] at h
            rcases List.mem_append.mp h with h4 | h4
            · exact Or.inl h4
            · exact Or.inr (Or.inr (List.mem_singleton.mp h4))
          · rw [if_neg hs] at h
            exact Or.inl h
        · exact Or.inr (Or.inl (List.mem_singleton.mp h))
      · rw [if_neg h3] at hu
        exact Or.inl hu

/-- A per-track property closed under the two synthetic conversions holds
of every element of the planning loop's output. -/
theorem planLoop_pred (P : Track → Prop)
    (hconv : ∀ t : Track, P t → P (aac_convert_audio t) ∧ P (dts_convert_audio t)) :
    ∀ (fuel i : Nat) (l : List Track), (∀ t ∈ l, P t) → ∀ u ∈ planLoop fuel i l, P u
  | 0, _, _ => fun h u hu => h u hu
  | fuel + 1, i, l => fun h u hu => by
    simp only [planLoop] at hu
    cases hg : l.get? i with
    | none => rw [hg] at hu; exact h u hu
    | some t =>
      rw [hg] at hu
      have ht : P t := h t (List.get?_mem hg)
      refine planLoop_pred P hconv fuel (i + 1) (planStep t l) ?_ u hu
      intro w hw
      rcases planStep_mem t l w hw with hw1 | hw2 | hw3
      · exact h w hw1
      · exact hw2 ▸ (hconv t ht).1
      · exact hw3 ▸ (hconv t ht).2

/-- Claim C6 (amended): provided the forced language is empty or itself in
the language ranking, every track reaching the ordering stage — whether
discovered by `probe` (including forced-language tracks) or synthesised by
`plan` — has a language in the ranking and a format in `FORMATS`, so
computing its sort key succeeds. -/
theorem tracks_key_ok (cfg : Config) (lines : List String) (v a s : List Track)
    (hf : cfg.force_language = "" ∨ cfg.force_language ∈ cfg.languages)
    (hp : probe cfg lines = .ok (v, a, s)) :
    ∀ t, (t ∈ v ∨ t ∈ plan a ∨ t ∈ s) →
      t.language ∈ cfg.languages ∧ t.format ∈ FORMATS ∧
        ∃ k, Track.key t cfg.languages = .ok k := by
  have hP : ∀ t, t ∈ v ++ a ++ s → t.language ∈ cfg.languages ∧ t.format ∈ FORMATS := by
    refine probeLoop_pred cfg _ ?_ lines [] [] [] v a s (by simp) hp
    intro line k t h
    obtain ⟨d, _, _, _, _, hfmt, _, _, _, _, hres⟩ := processLine_shape cfg line k t h
    refine ⟨?_, hfmt⟩
    rcases resolveLanguage_mem cfg d.language t.language hres with h1 | ⟨h2, h3⟩
    · exact h1
    · rcases hf with hf0 | hfm
      · exact absurd hf0 (h2 ▸ h3)
      · exact h2 ▸ hfm
  have hconv : ∀ t : Track,
      (t.language ∈ cfg.languages ∧ t.format ∈ FORMATS) →
        ((aac_convert_audio t).language ∈ cfg.languages ∧
            (aac_convert_audio t).format ∈ FORMATS) ∧
          ((dts_convert_audio t).language ∈ cfg.languages ∧
            (dts_convert_audio t).format ∈ FORMATS) := by
    intro t ht
    exact ⟨⟨ht.1, (by decide : ("aac" : String) ∈ FORMATS)⟩,
      ⟨ht.1, (by decide : ("dts" : String) ∈ FORMATS)⟩⟩
  have key_of : ∀ t : Track,
      t.language ∈ cfg.languages ∧ t.format ∈ FORMATS →
        ∃ k, Track.key t cfg.languages = .ok k := by
    intro t ht
    refine ⟨(cfg.languages.indexOf t.language, FORMATS.indexOf t.format), ?_⟩
    simp [Track.key, pyIndex, ht.1, ht.2]
  intro t ht
  have hPt : t.language ∈ cfg.languages ∧ t.format ∈ FORMATS := by
    rcases ht with h | h | h
    · exact hP t (by simp [h])
    · refine planLoop_pred _ hconv a.length 0 a ?_ t h
      intro w hw
      exact hP w (by simp [hw])
    · exact hP t (by simp [h])
  exact ⟨hPt.1, hPt.2, key_of t hPt⟩

/-- A list's deduplication has more than one element exactly when the list
holds an element different from a given member `x`. -/
theorem one_lt_dedup_length_iff {α : Type _} [DecidableEq α] (L : List α) (x : α)
    (hx : x ∈ L) : 1 < L.dedup.length ↔ ∃ y ∈ L, y ≠ x := by
  constructor
  · intro h
    by_contra hc
    push_neg at hc
    have hall : ∀ y ∈ L.dedup, y = x := fun y hy => hc y (List.mem_dedup.mp hy)
    cases hd : L.dedup with
    | nil => rw [hd] at h; simp at h
    | cons z zs =>
      cases zs with
      | nil => rw [hd] at h; simp at h
      | cons w ws =>
        have hz : z = x := hall z (hd ▸ List.mem_cons_self z (w :: ws))
        have hw : w = x := hall w (hd ▸ by simp)
        have hnd := L.nodup_dedup
        rw [hd] at hnd
        exact (List.nodup_cons.mp hnd).1 (by rw [hz, ← hw]; exact List.mem_cons_self w ws)
  · rintro ⟨y, hy, hne⟩
    have h1 : y ∈ L.dedup := List.mem_dedup.mpr hy
    have h2 : x ∈ L.dedup := List.mem_dedup.mpr hx
    by_contra hc
    push_neg at hc
    cases hd : L.dedup with
    | nil => rw [hd] at h1; simp at h1
    | cons z zs =>
      cases zs with
      | nil =>
        rw [hd] at h1 h2
        simp only [List.mem_singleton] at h1 h2
        exact hne (h1.trans h2.symm)
      | cons w ws =>
        rw [hd] at hc
        simp at hc

/-- Claim C8 (amended): for any track `t` of a kind-group list whose format
has a category label, the group's show-language flag is set exactly when
some track of the group has a different language (i.e. the set of distinct
languages has more than one element); with the flag set the title is the
display name (table entry if present, else the raw code) prepended to the
label — this is what subtitle metadata always uses, since `transcode`
passes `true` there — and with the flag clear it is the bare label.
Tracks without a label (convertible formats) get a `None` title instead. -/
theorem track_title_language (a : List Track) (t : Track) (n : String)
    (ht : t ∈ a) (hn : trackLabel t = some n) :
    (showLanguageFlag a = true ↔ ∃ u ∈ a, u.language ≠ t.language) ∧
      Track.name t true = some (languageDisplay t.language ++ " " ++ n) ∧
      Track.name t false = some n ∧
      ∀ (u : Track) (b : Bool), trackLabel u = none → Track.name u b = none := by
  refine ⟨?_, by simp [Track.name, hn], by simp [Track.name, hn], ?_⟩
  · unfold showLanguageFlag
    have htl : t.language ∈ a.map (fun u => u.language) := List.mem_map_of_mem _ ht
    rw [decide_eq_true_eq, one_lt_dedup_length_iff _ t.language htl]
    constructor
    · rintro ⟨y, hy, hne⟩
      obtain ⟨u, hu, hue⟩ := List.mem_map.mp hy
      exact ⟨u, hu, hue ▸ hne⟩
    · rintro ⟨u, hu, hne⟩
      exact ⟨u.language, List.mem_map_of_mem _ hu, hne⟩
  · intro u b h
    simp [Track.name, h]

/-- Witness for `track_title_language` on a two-language audio group: the
flag is set and the English track's title shows the display name. -/
theorem track_title_language_witness :
    Track.name ac3T01 true = some (languageDisplay ac3T01.language ++ " " ++ "Surround") ∧
      showLanguageFlag [ac3T01, rusAc3T] = true :=
  ⟨(track_title_language [ac3T01, rusAc3T] ac3T01 "Surround" (by decide) (by decide)).2.1,
    (track_title_language [ac3T01, rusAc3T] ac3T01 "Surround" (by decide) (by decide)).1.mpr
      ⟨rusAc3T, by decide, by decide⟩⟩

/-- Witness for `tracks_key_ok`: the probed ac3 track of the concrete
one-line inventory survives planning and its sort key is computable. -/
theorem tracks_key_ok_witness :
    (cfgStd.force_language = "" ∨ cfgStd.force_language ∈ cfgStd.languages) ∧
      (ac3T01.language ∈ cfgStd.languages ∧ ac3T01.format ∈ FORMATS ∧
        ∃ k, Track.key ac3T01 cfgStd.languages = .ok k) :=
  ⟨Or.inl rfl,
    tracks_key_ok cfgStd ["Stream #0:1(eng): Audio: ac3, stereo"] [] [ac3T01] []
      (Or.inl rfl) (by decide) ac3T01 (Or.inr (Or.inl (by decide)))⟩

/-- The additional-input renumbering is a no-op on a list with no temporary
track: no `-i` argument is emitted, no `file_id` is rewritten, the counter
does not move. -/
theorem renumberTemps_id : ∀ (l : List Track) (n : Nat),
    (∀ t ∈ l, t.temporary = false) → renumberTemps l n = .ok (l, [], n)
  | [], _, _ => rfl
  | t :: ts, n, h => by
    have ht : t.temporary = false := h t (List.mem_cons_self t ts)
    unfold renumberTemps
    rw [if_neg (by simp [ht])]
    rw [renumberTemps_id ts n (fun u hu => h u (List.mem_cons_of_mem t hu))]

/-- The subtitle additional-input loop is a no-op when no subtitle track is
temporary: in particular the audio list is left untouched. -/
theorem renumberSubs_id : ∀ (au : List Track) (aIdx : Option Nat) (l : List Track) (n : Nat),
    (∀ t ∈ l, t.temporary = false) → renumberSubs au aIdx l n = .ok (au, [], n)
  | _, _, [], _, _ => rfl
  | au, aIdx, t :: ts, n, h => by
    have ht : t.temporary = false := h t (List.mem_cons_self t ts)
    unfold renumberSubs
    rw [if_neg (by simp [ht])]
    rw [renumberSubs_id au aIdx ts n (fun u hu => h u (List.mem_cons_of_mem t hu))]

/-- Claim C10: every track built by the parser has `temporary = false`, the
planner's synthetic tracks keep `temporary = false`, the renumbering loops
are no-ops on such tracks (no extra `-i` input, no `file_id` rewritten),
and consequently a successful `transcode` run on temporary-free lists
either stops at the empty early return or assembles a command whose input
arguments are exactly `-i <source>` and whose final lists are just the
sorted (planned) input lists, with every `file_id` as constructed. -/
theorem no_temporary_tracks :
    (∀ (cfg : Config) (lines : List String) (v a s : List Track),
        probe cfg lines = .ok (v, a, s) → ∀ t, t ∈ v ++ a ++ s → t.temporary = false) ∧
      (∀ l : List Track, (∀ t ∈ l, t.temporary = false) →
        ∀ t ∈ plan l, t.temporary = false) ∧
      (∀ (l : List Track) (n : Nat), (∀ t ∈ l, t.temporary = false) →
        renumberTemps l n = .ok (l, [], n)) ∧
      (∀ (au l : List Track) (aIdx : Option Nat) (n : Nat),
        (∀ t ∈ l, t.temporary = false) → renumberSubs au aIdx l n = .ok (au, [], n)) ∧
      (∀ (cfg : Config) (v a s : List Track) (r : TranscodeResult),
        (∀ t, t ∈ v ++ a ++ s → t.temporary = false) →
        transcode cfg v a s = .ok r →
        r.cmd = none ∨
          ∃ rest, r.cmd = some ([FFMPEG_PATH, "-loglevel", cfg.ffmpeg_loglevel,
              "-i", cfg.source] ++ rest) ∧
            r.video_tracks = sortTracks cfg.languages v ∧
            r.audio_tracks = sortTracks cfg.languages (plan a) ∧
            r.subs_tracks = sortTracks cfg.languages s) := by
  have hprobe : ∀ (cfg : Config) (lines : List String) (v a s : List Track),
      probe cfg lines = .ok (v, a, s) → ∀ t, t ∈ v ++ a ++ s → t.temporary = false := by
    intro cfg lines v a s hp
    refine probeLoop_pred cfg _ ?_ lines [] [] [] v a s (by simp) hp
    intro line k t h
    obtain ⟨d, _, _, _, _, _, htemp, -⟩ := processLine_shape cfg line k t h
    exact htemp
  have hplan : ∀ l : List Track, (∀ t ∈ l, t.temporary = false) →
      ∀ t ∈ plan l, t.temporary = false :=
    fun l h => planLoop_pred (fun t => t.temporary = false)
      (fun _ _ => ⟨rfl, rfl⟩) l.length 0 l h
  refine ⟨hprobe, hplan, renumberTemps_id, fun au l aIdx n h => renumberSubs_id au aIdx l n h, ?_⟩
  intro cfg v a s r hT htr
  by_cases he : (v.isEmpty && a.isEmpty && s.isEmpty) = true
  · left
    unfold transcode at htr
    rw [if_pos he] at htr
    rw [← Except.ok.inj htr]
  · right
    have hTv : ∀ t ∈ v, t.temporary = false := fun t h => hT t (by simp [h])
    have hTa : ∀ t ∈ a, t.temporary = false := fun t h => hT t (by simp [h])
    have hTs : ∀ t ∈ s, t.temporary = false := fun t h => hT t (by simp [h])
    have hsv : ∀ t ∈ sortTracks cfg.languages v, t.temporary = false :=
      fun t h => hTv t ((List.perm_insertionSort _ v).mem_iff.mp h)
    have hsa : ∀ t ∈ sortTracks cfg.languages (plan a), t.temporary = false :=
      fun t h => hplan a hTa t ((List.perm_insertionSort _ (plan a)).mem_iff.mp h)
    have hss : ∀ t ∈ sortTracks cfg.languages s, t.temporary = false :=
      fun t h => hTs t ((List.perm_insertionSort _ s).mem_iff.mp h)
    cases hc1 : checkKeys cfg.languages v with
    | error e =>
      simp only [transcode, if_neg he, hc1] at htr
      exact absurd htr (by simp)
    | ok u1 =>
    cases hc2 : checkKeys cfg.languages (plan a) with
    | error e =>
      simp only [transcode, if_neg he, hc1, hc2] at htr
      exact absurd htr (by simp)
    | ok u2 =>
    cases hc3 : checkKeys cfg.languages s with
    | error e =>
      simp only [transcode, if_neg he, hc1, hc2, hc3] at htr
      exact absurd htr (by simp)
    | ok u3 =>
    cases hcs : codecSubs
        (((sortTracks cfg.languages (plan a)).getLast?).orElse
          fun _ => (sortTracks cfg.languages v).getLast?) 0
        (sortTracks cfg.languages s) with
    | error e =>
      simp only [transcode, if_neg he, hc1, hc2, hc3,
        renumberTemps_id (sortTracks cfg.languages v) 1 hsv,
        renumberTemps_id (sortTracks cfg.languages (plan a)) 1 hsa,
        renumberSubs_id (sortTracks cfg.languages (plan a))
          (lastTempIdx (sortTracks cfg.languages (plan a)))
          (sortTracks cfg.languages s) 1 hss, hcs] at htr
      exact absurd htr (by simp)
    | ok cS =>
      simp only [transcode, if_neg he, hc1, hc2, hc3,
        renumberTemps_id (sortTracks cfg.languages v) 1 hsv,
        renumberTemps_id (sortTracks cfg.languages (plan a)) 1 hsa,
        renumberSubs_id (sortTracks cfg.languages (plan a))
          (lastTempIdx (sortTracks cfg.languages (plan a)))
          (sortTracks cfg.languages s) 1 hss, hcs, Except.ok.injEq] at htr
      rw [← htr]
      refine ⟨mapArgs (sortTracks cfg.languages v) ++
          (mapArgs (sortTracks cfg.languages (plan a)) ++
            (mapArgs (sortTracks cfg.languages s) ++
              (codecKind "v" 0 (sortTracks cfg.languages v) ++
                (codecKind "a" 0 (sortTracks cfg.languages (plan a)) ++
                  (cS ++
                    (metadataKind "v" (showLanguageFlag (sortTracks cfg.languages v)) 0
                        (sortTracks cfg.languages v) ++
                      (metadataKind "a" (showLanguageFlag (sortTracks cfg.languages (plan a))) 0
                          (sortTracks cfg.languages (plan a)) ++
                        (metadataKind "s" true 0 (sortTracks cfg.languages s) ++
                          (dcaFlagArgs (sortTracks cfg.languages (plan a)) ++
                            ["-f", "mp4", "-y",
                              transcodeBasename cfg.source ++ ".transcoded.m4v"]))))))))),
        ?_, rfl, rfl, rfl⟩
      simp [List.append_assoc]

/-- Witness for `no_temporary_tracks` on the concrete ac3 run: the command
has the single `-i movie.mkv` input and the lists are the sorted planned
inputs. -/
theorem no_temporary_tracks_witness :
    (∀ t, t ∈ ([] : List Track) ++ [ac3T01] ++ ([] : List Track) → t.temporary = false) ∧
      (resAc3.cmd = none ∨
        ∃ rest, resAc3.cmd = some ([FFMPEG_PATH, "-loglevel", cfgStd.ffmpeg_loglevel,
            "-i", cfgStd.source] ++ rest) ∧
          resAc3.video_tracks = sortTracks cfgStd.languages [] ∧
          resAc3.audio_tracks = sortTracks cfgStd.languages (plan [ac3T01]) ∧
          resAc3.subs_tracks = sortTracks cfgStd.languages []) :=
  ⟨by decide,
    no_temporary_tracks.2.2.2.2 cfgStd [] [ac3T01] [] resAc3 (by decide) (by decide)⟩

